import Mathlib

set_option maxRecDepth 16384

/-!
Verification of the `huggable` command-line tool (single source file
`huggable.py`) against its natural-language specification.

Strings are embedded as `List Char` (Python strings are sequences of code
points, and all operations used by the program — `find`, `rfind`, slicing,
`strip`, `startswith`, `replace`, `lower`, `in` — work on code points).
Python's `str.strip()` is modelled on the ASCII whitespace characters, and
`str.lower()` by ASCII lowercasing, which agree with Python on every string
the program manipulates.

Effectful control flow (`main`, `create_app`, `save_app`, `run_server`,
`call_claude_api`) is embedded as a function producing the ordered list of
observable effects; the remote API response is a parameter
(`Except err text`), matching "the transport either returns text or raises".
-/

/-- Characters stripped by Python `str.strip()` (ASCII whitespace subset). -/
def pySpace (c : Char) : Bool :=
  c = ' ' || c = '\t' || c = '\n' || c = '\r' || c = '\x0b' || c = '\x0c'

/-- Python `str.lstrip()`. -/
def pyLstrip (l : List Char) : List Char := l.dropWhile pySpace

/-- Python `str.rstrip()`. -/
def pyRstrip (l : List Char) : List Char := (l.reverse.dropWhile pySpace).reverse

/-- Python `str.strip()`. -/
def pyStrip (l : List Char) : List Char := pyRstrip (pyLstrip l)

/-- Does `sub` occur in `s` starting at position `i`? -/
def matchesAt (s sub : List Char) (i : Nat) : Bool := sub.isPrefixOf (s.drop i)

/-- Python `s.find(sub)`: index of the first occurrence, `-1` if absent. -/
def pyFind (s sub : List Char) : Int :=
  match (List.range (s.length + 1)).find? (matchesAt s sub) with
  | some i => (i : Int)
  | none => -1

/-- Python `s.rfind(sub)`: index of the last occurrence, `-1` if absent. -/
def pyRfind (s sub : List Char) : Int :=
  match ((List.range (s.length + 1)).reverse).find? (matchesAt s sub) with
  | some i => (i : Int)
  | none => -1

/-- Python `sub in s` (substring containment). -/
def containsSub (s sub : List Char) : Bool := pyFind s sub != -1

/-- Normalization of one slice bound, as Python does it: negative indices
count from the end, then the bound is clamped to `[0, n]`. -/
def sliceIdx (n : Nat) (i : Int) : Nat :=
  (max 0 (if i < 0 then i + n else i)).toNat.min n

/-- Python `s[a:b]`. -/
def pySlice (s : List Char) (a b : Int) : List Char :=
  (s.take (sliceIdx s.length b)).drop (sliceIdx s.length a)

/-- The html fence-open marker searched for by `clean_html_response`. -/
def htmlFenceL : List Char := ("```html").data

/-- The generic fence marker searched for by `clean_html_response`. -/
def fenceL : List Char := ("```").data

/-- The document-type marker tested by `startswith`. -/
def doctypeL : List Char := ("<!DOCTYPE html>").data

/-- The root-element marker tested by `startswith`. -/
def htmlOpenL : List Char := ("<html").data

/-- The line prepended when the markers are absent. -/
def declL : List Char := ("<!DOCTYPE html>\n").data

/-- The `startswith`-guarded prepend at the end of `clean_html_response`:
`if not response.strip().startswith("<!DOCTYPE html>") and not
response.strip().startswith("<html"): response = "<!DOCTYPE html>\n" + response`. -/
def ensureDoctype (response : List Char) : List Char :=
  if ¬(doctypeL.isPrefixOf (pyStrip response) = true)
      ∧ ¬(htmlOpenL.isPrefixOf (pyStrip response) = true) then
    declL ++ response
  else response

/-- `Huggable.clean_html_response`, line for line: strip a markdown fence
(html-tagged preferred, first `find` to last `rfind`), then ensure the text
starts with a document-type declaration, then strip. -/
def clean_html_response (response : List Char) : List Char :=
  let response :=
    if containsSub response htmlFenceL then
      pyStrip (pySlice response (pyFind response htmlFenceL + 7) (pyRfind response fenceL))
    else if containsSub response fenceL then
      pyStrip (pySlice response (pyFind response fenceL + 3) (pyRfind response fenceL))
    else response
  pyStrip (ensureDoctype response)

/-- The fixed template text before the interpolated app description in
`generate_prompt`. -/
def promptPrefixL : List Char :=
  ("Create a complete, beautiful, and modern web application based on this description:\n\n").data

/-- The fixed template text between the interpolated description and the
interpolated style preferences in `generate_prompt`. -/
def promptMidL : List Char :=
  ("\n\nRequirements:\n1. Create a single HTML file with embedded CSS and JavaScript\n2. Use modern, responsive design with animations and transitions\n3. Include interactive elements and smooth user experience\n4. Use contemporary design trends (gradients, shadows, glassmorphism, etc.)\n5. Ensure the app is fully functional, not just a mockup\n6. Include proper semantic HTML and accessibility features\n7. Make it visually stunning with attention to detail\n\nStyle preferences: ").data

/-- The fixed template text after the interpolated style preferences in
`generate_prompt`. -/
def promptSuffixL : List Char :=
  ("\n\nPlease provide ONLY the complete HTML code without any explanations or markdown formatting.").data

/-- The default style phrase substituted when `style_preferences` is empty
(Python truthiness: the empty string is falsy). -/
def defaultStyleL : List Char := ("Modern, clean, and engaging").data

/-- `Huggable.generate_prompt`: the f-string of the source, as concatenation of
the fixed template parts with `app_description` and either `style_preferences`
or the default phrase interpolated. -/
def generate_prompt (app_description style_preferences : List Char) : List Char :=
  promptPrefixL ++ (app_description ++ (promptMidL ++
    ((if style_preferences = ([] : List Char) then defaultStyleL else style_preferences)
      ++ promptSuffixL)))

/-- Python `str.lower()`, modelled by ASCII lowercasing. -/
def pyLower (l : List Char) : List Char := l.map Char.toLower

/-- Python `s.replace(" ", "_")`: every space becomes an underscore (for a
one-character pattern, `replace`is exactly a per-character map). -/
def pyReplaceSpaceUnderscore (l : List Char) : List Char :=
  l.map (fun c => if c = ' ' then '_' else c)

/-- The directory slug of `Huggable.save_app`:
`app_name.replace(" ", "_").lower()`. -/
def slugify (app_name : List Char) : List Char :=
  pyLower (pyReplaceSpaceUnderscore app_name)

/-- Observable side effects of one invocation, in program order. -/
inductive Effect where
  | printMsg (msg : List Char)
  | mkdir (path : List Char)
  | writeFile (path content : List Char)
  | networkCall
  | chdir (path : List Char)
  | bindServer (port : Nat)
  | openBrowser (port : Nat)
  | serveForever
  | exitProc (code : Nat)
deriving DecidableEq

/-- The `generated_apps` output directory created by `Huggable.__init__`. -/
def outputDirL : List Char := ("generated_apps").data

/-- Progress message printed by `call_claude_api`. -/
def callingMsgL : List Char := ("🤖 Calling Claude 4 Opus to generate your web app...").data

/-- Diagnostic printed by `call_claude_api` on an exception, before `str(e)`. -/
def apiErrPrefixL : List Char := ("❌ Error calling Claude API: ").data

/-- Message printed by `save_app` before the file path. -/
def savedMsgPrefixL : List Char := ("✅ App saved to: ").data

/-- First banner line of `create_app`, before the app name. -/
def creatingMsgPrefixL : List Char := ("\n🎨 Creating web app: ").data

/-- Second banner line of `create_app`, before the description. -/
def descMsgPrefixL : List Char := ("📝 Description: ").data

/-- Success message of `create_app`. -/
def createdMsgL : List Char := ("\n✨ Web app successfully created!").data

/-- Server banner of `run_server`, before the port number. -/
def serverMsgPrefixL : List Char := ("🚀 Server running at http://localhost:").data

/-- Second server line of `run_server`. -/
def ctrlCMsgL : List Char := ("Press Ctrl+C to stop the server").data

/-- First diagnostic of `main` when no API key is resolved. -/
def noKeyMsg1L : List Char := ("❌ Error: No API key provided!").data

/-- Second diagnostic of `main` when no API key is resolved. -/
def noKeyMsg2L : List Char :=
  ("Please set ANTHROPIC_API_KEY environment variable or use --api-key flag").data

/-- Message printed by `main` under `--no-run`, before the artifact path. -/
def appPathMsgPrefixL : List Char := ("\n📁 App created at: ").data

/-- Manual-serve instruction printed by `main` under `--no-run`. -/
def runInstrL (port : Nat) (parent_dir : List Char) : List Char :=
  ("Run 'python -m http.server ").data ++ ((Nat.repr port).data
    ++ (("' in ").data ++ (parent_dir ++ (" to serve it").data)))

/-- `Huggable.call_claude_api`: prints the progress message, performs the one
network request; on an exception prints the diagnostic and exits with status 1
(`sys.exit(1)`), yielding no result text. -/
def call_claude_api (resp : Except (List Char) (List Char)) :
    List Effect × Option (List Char) :=
  match resp with
  | .ok t => ([Effect.printMsg callingMsgL, Effect.networkCall], some t)
  | .error e => ([Effect.printMsg callingMsgL, Effect.networkCall,
      Effect.printMsg (apiErrPrefixL ++ e), Effect.exitProc 1], none)

/-- `Huggable.save_app`: creates `generated_apps/<slug>`, writes the content
to `index.html` inside it, prints the saved message, returns the file path. -/
def save_app (html_content app_name : List Char) : List Effect × List Char :=
  ([Effect.mkdir (outputDirL ++ (("/").data ++ slugify app_name)),
    Effect.writeFile
      (outputDirL ++ (("/").data ++ (slugify app_name ++ ("/index.html").data)))
      html_content,
    Effect.printMsg (savedMsgPrefixL
      ++ (outputDirL ++ (("/").data ++ (slugify app_name ++ ("/index.html").data))))],
   outputDirL ++ (("/").data ++ (slugify app_name ++ ("/index.html").data)))

/-- `Huggable.run_server` (called with the default port 8080): changes
directory to the app file's parent directory, binds the local server, prints
the banner lines, opens the browser, and enters the blocking serve loop
(the loop and its interrupt shutdown produce no further effects here). -/
def run_server (app_parent_dir : List Char) (port : Nat) : List Effect :=
  [Effect.chdir app_parent_dir, Effect.bindServer port,
   Effect.printMsg (serverMsgPrefixL ++ (Nat.repr port).data),
   Effect.printMsg ctrlCMsgL, Effect.openBrowser port, Effect.serveForever]

/-- `Huggable.create_app`: prints the banner lines, builds the prompt, calls
the API; on success sanitizes the response with `clean_html_response`, saves
it with `save_app`, prints the success message and, when `auto_run`, runs the
server (the source calls `run_server(app_path)` with the default port 8080).
Returns the saved file path, or nothing when the process exited inside
`call_claude_api`. -/
def create_app (resp : Except (List Char) (List Char))
    (description name style : List Char) (auto_run : Bool) :
    List Effect × Option (List Char) :=
  match call_claude_api resp with
  | (eff, none) =>
      ([Effect.printMsg (creatingMsgPrefixL ++ name),
        Effect.printMsg (descMsgPrefixL ++ (description ++ ("\n").data))] ++ eff, none)
  | (eff, some response) =>
      ([Effect.printMsg (creatingMsgPrefixL ++ name),
        Effect.printMsg (descMsgPrefixL ++ (description ++ ("\n").data))]
        ++ eff ++ (save_app (clean_html_response response) name).1
        ++ [Effect.printMsg createdMsgL]
        ++ (if auto_run then
              run_server (outputDirL ++ (("/").data ++ slugify name)) 8080
            else []),
       some (save_app (clean_html_response response) name).2)

/-- Python falsiness of the resolved `--api-key` value: absent (`None`) or the
empty string. -/
def pyFalsy : Option (List Char) → Bool
  | none => true
  | some k => k.isEmpty

/-- argparse resolution of the key: the `--api-key` flag value when given,
else the environment variable (the argparse `default`). -/
def resolveKey : Option (List Char) → Option (List Char) → Option (List Char)
  | some k, _ => some k
  | none, env => env

/-- `main`: resolves the API key, and if it is falsy prints the two
diagnostics and exits with status 1; otherwise constructs `Huggable` (whose
`__init__` creates the output directory), drives `create_app` with
`auto_run = not no_run`, and under `--no-run` prints the artifact path and
the manual-serve instruction. `resp` is the outcome of the network request. -/
def mainRun (flagKey envKey : Option (List Char))
    (name description style : List Char) (no_run : Bool) (port : Nat)
    (resp : Except (List Char) (List Char)) : List Effect :=
  if pyFalsy (resolveKey flagKey envKey) then
    [Effect.printMsg noKeyMsg1L, Effect.printMsg noKeyMsg2L, Effect.exitProc 1]
  else
    Effect.mkdir outputDirL ::
      ((create_app resp description name style (!no_run)).1
        ++ (match (create_app resp description name style (!no_run)).2 with
            | none => []
            | some html_file =>
                if no_run then
                  [Effect.printMsg (appPathMsgPrefixL ++ html_file),
                   Effect.printMsg
                     (runInstrL port (outputDirL ++ (("/").data ++ slugify name)))]
                else []))

/-- Tests whether an effect is the network request. -/
def isNetworkCall : Effect → Bool
  | Effect.networkCall => true
  | _ => false

/-- Number of network requests in a trace. -/
def countNetwork (t : List Effect) : Nat := t.countP isNetworkCall

theorem matchesAt_iff {s sub : List Char} {i : Nat} :
    matchesAt s sub i = true ↔ sub <+: s.drop i := by
  unfold matchesAt
  exact List.isPrefixOf_iff_prefix

theorem containsSub_eq_true_iff (s sub : List Char) :
    containsSub s sub = true ↔ sub <:+: s := by
  unfold containsSub pyFind
  rcases h : (List.range (s.length + 1)).find? (matchesAt s sub) with _ | i
  · simp only [h]
    constructor
    · intro hc; simp at hc
    · intro hinf
      exfalso
      rw [List.find?_eq_none] at h
      obtain ⟨a, b, hab⟩ := hinf
      have hmem : a.length ∈ List.range (s.length + 1) := by
        rw [List.mem_range]
        have : s.length = a.length + sub.length + b.length := by
          rw [← hab]; simp [List.length_append]; omega
        omega
      refine h _ hmem ?_
      rw [matchesAt_iff]
      have hd : s.drop a.length = sub ++ b := by
        rw [← hab, List.append_assoc]
        exact List.drop_left a (sub ++ b)
      rw [hd]
      exact ⟨b, rfl⟩
  · simp only [h]
    constructor
    · intro _
      have hp := List.find?_some h
      rw [matchesAt_iff] at hp
      exact List.IsInfix.trans ( List.IsPrefix.isInfix hp) ( List.IsSuffix.isInfix (s.drop_suffix i))
    · intro _
      simp

theorem infix_append_cases {sub a b : List Char} (h : sub <:+: a ++ b) :
    sub <:+: a ∨ sub <:+: b ∨
      ∃ u v, sub = u ++ v ∧ u ≠ [] ∧ v ≠ [] ∧ u <:+ a ∧ v <+: b := by
  obtain ⟨p, q, hpq⟩ := h
  rw [List.append_assoc] at hpq
  rcases List.append_eq_append_iff.mp hpq with ⟨t, ha, ht⟩ | ⟨t, hp, hb⟩
  · rcases List.append_eq_append_iff.mp ht with ⟨w, ht2, hq⟩ | ⟨w, hsub, hb2⟩
    · left
      exact ⟨p, w, by rw [ha, ht2, List.append_assoc]⟩
    · by_cases hT : t = []
      · right; left
        subst hT
        simp only [List.nil_append] at hsub
        exact ⟨[], q, by simp [hsub, ← hb2]⟩
      by_cases hW : w = []
      · left
        subst hW
        rw [List.append_nil] at hsub
        exact ⟨p, [], by simp [hsub, ← ha]⟩
      · right; right
        exact ⟨t, w, hsub, hT, hW, ⟨p, ha.symm⟩, ⟨q, hb2.symm⟩⟩
  · right; left
    exact ⟨t, q, by rw [hb, List.append_assoc]⟩

theorem prefix_head?_eq {u l : List Char} (h : u <+: l) (hu : u ≠ []) :
    u.head? = l.head? := by
  obtain ⟨t, rfl⟩ := h
  cases u with
  | nil => exact absurd rfl hu
  | cons c cs => rfl

theorem getLast?_of_nonempty_suffix {u l : List Char} (h : u <:+ l) (hu : u ≠ []) :
    u.getLast? = l.getLast? := by
  obtain ⟨t, rfl⟩ := h
  rw [List.getLast?_append]
  rcases hlast : u.getLast? with _ | c
  · rw [List.getLast?_eq_none_iff] at hlast
    exact absurd hlast hu
  · rfl

theorem mem_of_head?_eq_some {l : List Char} {c : Char} (h : l.head? = some c) : c ∈ l := by
  cases l with
  | nil => simp at h
  | cons a as =>
    simp only [List.head?_cons, Option.some.injEq] at h
    rw [h]; exact List.mem_cons_self c as

theorem contains_htmlFence_imp_fence {x : List Char} (h : containsSub x htmlFenceL = true) :
    containsSub x fenceL = true := by
  rw [containsSub_eq_true_iff] at h ⊢
  exact List.IsInfix.trans ( List.IsPrefix.isInfix (show fenceL <+: htmlFenceL by decide)) h

theorem contains_fence_false_html {x : List Char} (h : containsSub x fenceL = false) :
    containsSub x htmlFenceL = false := by
  cases hx : containsSub x htmlFenceL with
  | false => rfl
  | true =>
    rw [contains_htmlFence_imp_fence hx] at h
    simp at h

theorem contains_false_mono {a b sub : List Char} (h : containsSub b sub = false)
    (hab : a <:+: b) : containsSub a sub = false := by
  cases hx : containsSub a sub with
  | false => rfl
  | true =>
    have hi := ((containsSub_eq_true_iff a sub).mp hx).trans hab
    rw [(containsSub_eq_true_iff b sub).mpr hi] at h
    simp at h

theorem pyLstrip_suffix (l : List Char) : pyLstrip l <:+ l :=
  List.dropWhile_suffix pySpace

theorem pyRstrip_prefix_self (l : List Char) : pyRstrip l <+: l := by
  unfold pyRstrip
  rw [← List.reverse_suffix]
  simpa using List.dropWhile_suffix (l := l.reverse) pySpace

theorem pyStrip_infix_self (l : List Char) : pyStrip l <:+: l :=
  List.IsInfix.trans ( List.IsPrefix.isInfix (pyRstrip_prefix_self (pyLstrip l)))
    ( List.IsSuffix.isInfix (pyLstrip_suffix l))

theorem dropWhile_head_false (p : Char → Bool) (l : List Char) :
    ∀ c, (l.dropWhile p).head? = some c → p c = false := by
  induction l with
  | nil => intro c hc; simp at hc
  | cons a as ih =>
    intro c hc
    rw [List.dropWhile_cons] at hc
    by_cases hpa : p a = true
    · rw [if_pos hpa] at hc
      exact ih c hc
    · rw [if_neg hpa] at hc
      simp only [List.head?_cons, Option.some.injEq] at hc
      rw [← hc]
      exact Bool.not_eq_true _ ▸ hpa

theorem dropWhile_no_head (p : Char → Bool) (l : List Char)
    (h : ∀ c, l.head? = some c → p c = false) : l.dropWhile p = l := by
  cases l with
  | nil => rfl
  | cons a as =>
    rw [List.dropWhile_cons, h a rfl]
    simp

theorem dropWhile_idem (p : Char → Bool) (l : List Char) :
    (l.dropWhile p).dropWhile p = l.dropWhile p :=
  dropWhile_no_head p _ (dropWhile_head_false p l)

theorem pyLstrip_no_head {l : List Char} (h : ∀ c, l.head? = some c → pySpace c = false) :
    pyLstrip l = l :=
  dropWhile_no_head pySpace l h

theorem pyLstrip_head_false (l : List Char) :
    ∀ c, (pyLstrip l).head? = some c → pySpace c = false :=
  dropWhile_head_false pySpace l

theorem pyRstrip_idem (l : List Char) : pyRstrip (pyRstrip l) = pyRstrip l := by
  unfold pyRstrip
  rw [List.reverse_reverse, dropWhile_idem]

theorem pyStrip_idem (l : List Char) : pyStrip (pyStrip l) = pyStrip l := by
  unfold pyStrip
  have hl : pyLstrip (pyRstrip (pyLstrip l)) = pyRstrip (pyLstrip l) := by
    apply pyLstrip_no_head
    intro c hc
    rcases hne : pyRstrip (pyLstrip l) with _ | ⟨a, as⟩
    · rw [hne] at hc; simp at hc
    · have hpre := pyRstrip_prefix_self (pyLstrip l)
      rw [hne] at hc hpre
      refine pyLstrip_head_false l c ?_
      rw [← prefix_head?_eq hpre (by simp)]
      exact hc
  rw [hl, pyRstrip_idem]

theorem pyStrip_decl_append (x : List Char) :
    pyStrip (declL ++ x) = pyRstrip (declL ++ x) := by
  unfold pyStrip
  rw [pyLstrip_no_head]
  intro c hc
  rw [show declL = '<' :: (("!DOCTYPE html>\n").data) from by decide] at hc
  simp only [List.cons_append, List.head?_cons, Option.some.injEq] at hc
  rw [← hc]
  decide

theorem clean_nofence {x : List Char} (h : containsSub x fenceL = false) :
    clean_html_response x =
      if doctypeL.isPrefixOf (pyStrip x) = true ∨ htmlOpenL.isPrefixOf (pyStrip x) = true
      then pyStrip x else pyRstrip (declL ++ x) := by
  have hh := contains_fence_false_html h
  show pyStrip (ensureDoctype
      (if containsSub x htmlFenceL then
        pyStrip (pySlice x (pyFind x htmlFenceL + 7) (pyRfind x fenceL))
      else if containsSub x fenceL then
        pyStrip (pySlice x (pyFind x fenceL + 3) (pyRfind x fenceL))
      else x)) = _
  rw [if_neg (by simp [hh]), if_neg (by simp [h])]
  unfold ensureDoctype
  by_cases hc : doctypeL.isPrefixOf (pyStrip x) = true ∨ htmlOpenL.isPrefixOf (pyStrip x) = true
  · rw [if_neg (by tauto), if_pos hc]
  · rw [if_pos (by tauto), if_neg hc]
    exact pyStrip_decl_append x

theorem rstrip_decl_append (x : List Char) :
    pyRstrip (declL ++ x) = declL ++ pyRstrip x ∨ pyRstrip (declL ++ x) = doctypeL := by
  unfold pyRstrip
  rw [List.reverse_append, List.dropWhile_append]
  by_cases he : ((x.reverse.dropWhile pySpace).isEmpty = true)
  · right
    rw [if_pos he]
    decide
  · left
    rw [if_neg he, List.reverse_append, List.reverse_reverse]

theorem fence_not_in_decl_append {x : List Char} (h : containsSub x fenceL = false) :
    ¬ (fenceL <:+: declL ++ x) := by
  intro hinf
  rcases infix_append_cases hinf with h1 | h2 | ⟨u, v, he, hu, hv, hua, hvb⟩
  · exact absurd h1 (by decide)
  · rw [(containsSub_eq_true_iff x fenceL).mpr h2] at h
    simp at h
  · have hh : u.head? = fenceL.head? := prefix_head?_eq ⟨v, he.symm⟩ hu
    have hm : Char.ofNat 96 ∈ u := by
      apply mem_of_head?_eq_some
      rw [hh]; decide
    exact absurd (hua.subset hm) (by decide)

/-- C2 counterexample: on the fence-free input `" <div>hello</div>"` (one
leading space), `clean_html_response` does NOT return the declaration line
prepended to the trimmed text — the input's leading space survives between
the declaration line and the content. -/
theorem C2_counterexample :
    containsSub ((" <div>hello</div>").data) fenceL = false ∧
    clean_html_response ((" <div>hello</div>").data)
        = ("<!DOCTYPE html>\n <div>hello</div>").data ∧
    clean_html_response ((" <div>hello</div>").data)
        ≠ declL ++ pyStrip ((" <div>hello</div>").data) := by
  refine ⟨by decide, by decide, by decide⟩

/-- C2 (amended): for every fence-free input, if the trimmed text does not
begin with the document-type declaration or an opening root-element tag,
`clean_html_response` returns the declaration line prepended to the ORIGINAL
(untrimmed) text with trailing whitespace then removed — leading whitespace
of the input is preserved after the declaration — and otherwise returns the
trimmed text unchanged.  The two particular examples of the claim hold
exactly as stated. -/
theorem C2_doctype_injection :
    (∀ x : List Char, containsSub x fenceL = false →
      clean_html_response x =
        if doctypeL.isPrefixOf (pyStrip x) = true ∨ htmlOpenL.isPrefixOf (pyStrip x) = true
        then pyStrip x else pyRstrip (declL ++ x)) ∧
    clean_html_response (("<div>hello</div>").data)
        = declL ++ (("<div>hello</div>").data) ∧
    clean_html_response (("<!DOCTYPE html><html>...</html>").data)
        = ("<!DOCTYPE html><html>...</html>").data := by
  refine ⟨fun x h => clean_nofence h, by decide, by decide⟩

/-- Witness for C2: the amended characterization evaluated at the concrete
fence-free input `"<div>hello</div>"`. -/
theorem C2_witness :
    containsSub (("<div>hello</div>").data) fenceL = false ∧
    clean_html_response (("<div>hello</div>").data)
        = ("<!DOCTYPE html>\n<div>hello</div>").data := by
  constructor
  · decide
  · rw [C2_doctype_injection.1 (("<div>hello</div>").data) (by decide)]
    decide

/-- C3: the sanitizer is idempotent on every text that lacks fence markers:
`clean_html_response (clean_html_response x) = clean_html_response x`
whenever `x` contains no occurrence of three backticks. -/
theorem C3_idempotent : ∀ x : List Char, containsSub x fenceL = false →
    clean_html_response (clean_html_response x) = clean_html_response x := by
  intro x h
  rw [clean_nofence h]
  by_cases hc : doctypeL.isPrefixOf (pyStrip x) = true ∨ htmlOpenL.isPrefixOf (pyStrip x) = true
  · rw [if_pos hc]
    have hy : containsSub (pyStrip x) fenceL = false :=
      contains_false_mono h (pyStrip_infix_self x)
    rw [clean_nofence hy, pyStrip_idem, if_pos hc]
  · rw [if_neg hc]
    have hyinf : pyRstrip (declL ++ x) <:+: declL ++ x :=
       List.IsPrefix.isInfix (pyRstrip_prefix_self _)
    have hy : containsSub (pyRstrip (declL ++ x)) fenceL = false := by
      cases hx : containsSub (pyRstrip (declL ++ x)) fenceL with
      | false => rfl
      | true =>
        have hi := ((containsSub_eq_true_iff _ _).mp hx).trans hyinf
        exact absurd hi (fence_not_in_decl_append h)
    rcases rstrip_decl_append x with hcase | hcase
    · rw [clean_nofence hy]
      have hls : pyLstrip (pyRstrip (declL ++ x)) = pyRstrip (declL ++ x) := by
        apply pyLstrip_no_head
        intro c hcH
        rw [hcase, show declL = '<' :: (("!DOCTYPE html>\n").data) from by decide] at hcH
        simp only [List.cons_append, List.head?_cons, Option.some.injEq] at hcH
        rw [← hcH]
        decide
      have hstr : pyStrip (pyRstrip (declL ++ x)) = pyRstrip (declL ++ x) := by
        unfold pyStrip
        rw [hls, pyRstrip_idem]
      have hpre : doctypeL.isPrefixOf (pyStrip (pyRstrip (declL ++ x))) = true := by
        rw [hstr, hcase, List.isPrefixOf_iff_prefix]
        exact (show doctypeL <+: declL from by decide).trans (List.prefix_append _ _)
      rw [if_pos (Or.inl hpre), hstr]
    · rw [hcase]
      decide

/-- Witness for C3: idempotence evaluated at the fence-free input
`"<div>hi</div>"`. -/
theorem C3_witness :
    containsSub (("<div>hi</div>").data) fenceL = false ∧
    clean_html_response (clean_html_response (("<div>hi</div>").data))
        = clean_html_response (("<div>hi</div>").data) :=
  ⟨by decide, C3_idempotent (("<div>hi</div>").data) (by decide)⟩

theorem find?_reverse_range {p : Nat → Bool} {n i : Nat} (hi : i ≤ n)
    (hp : p i = true) (hafter : ∀ j, j ≤ n → i < j → p j = false) :
    ((List.range (n + 1)).reverse).find? p = some i := by
  induction n with
  | zero =>
    have h0 : i = 0 := Nat.le_zero.mp hi
    subst h0
    simp [List.range_succ, hp]
  | succ n ih =>
    rw [List.range_succ (n + 1), List.reverse_append]
    simp only [List.reverse_cons, List.reverse_nil, List.nil_append, List.cons_append,
      List.nil_append]
    rcases Nat.lt_or_ge i (n + 1) with hlt | hge
    · rw [List.find?_cons_of_neg _ (by simp [hafter (n + 1) (Nat.le_refl _) hlt])]
      exact ih (Nat.lt_succ_iff.mp hlt) (fun j hj hij => hafter j (Nat.le_succ_of_le hj) hij)
    · have : i = n + 1 := Nat.le_antisymm hi hge
      subst this
      exact List.find?_cons_of_pos _ hp

/-- C10: if the input contains the html-tagged fence-open marker at position
`i` (located by `find`) and the generic fence marker occurs nowhere after `i`,
then `rfind` locates the backticks of the opening marker itself, the extracted
slice is empty, and the sanitizer returns exactly the document-type
declaration line, discarding the entire generated content. -/
theorem C10_lone_fence (r : List Char) (i : Nat)
    (hfind : pyFind r htmlFenceL = (i : Int))
    (hafter : ∀ j, j ≤ r.length → i < j → matchesAt r fenceL j = false) :
    pyRfind r fenceL = (i : Int) ∧
    pySlice r ((i : Int) + 7) ((i : Int)) = [] ∧
    clean_html_response r = doctypeL := by
  have hmAt : matchesAt r htmlFenceL i = true := by
    unfold pyFind at hfind
    rcases hf : (List.range (r.length + 1)).find? (matchesAt r htmlFenceL) with _ | k
    · simp only [hf] at hfind
      omega
    · simp only [hf] at hfind
      have hk : k = i := by exact_mod_cast hfind
      rw [← hk]
      exact List.find?_some hf
  have hmAt' : htmlFenceL <+: r.drop i := matchesAt_iff.mp hmAt
  have hle : i ≤ r.length := by
    have h7 := hmAt'.length_le
    rw [List.length_drop] at h7
    have hfl : htmlFenceL.length = 7 := by decide
    omega
  have hfi : matchesAt r fenceL i = true := by
    rw [matchesAt_iff]
    exact (show fenceL <+: htmlFenceL by decide).trans hmAt'
  have hcontains : containsSub r htmlFenceL = true := by
    unfold containsSub
    rw [hfind]
    simp
  have hrfind : pyRfind r fenceL = (i : Int) := by
    unfold pyRfind
    rw [find?_reverse_range hle hfi hafter]
  have hsa : sliceIdx r.length ((i : Int) + 7) = min (i + 7) r.length := by
    unfold sliceIdx
    rw [if_neg (by omega), max_eq_right (by omega : (0 : Int) ≤ (i : Int) + 7),
      show ((i : Int) + 7) = ((i + 7 : Nat) : Int) from by push_cast; ring,
      Int.toNat_natCast]
  have hsb : sliceIdx r.length ((i : Int)) = min i r.length := by
    unfold sliceIdx
    rw [if_neg (by omega), max_eq_right (by omega : (0 : Int) ≤ (i : Int)),
      Int.toNat_natCast]
  have hslice : pySlice r ((i : Int) + 7) ((i : Int)) = [] := by
    unfold pySlice
    rw [hsa, hsb]
    apply List.drop_eq_nil_of_le
    rw [List.length_take]
    omega
  refine ⟨hrfind, hslice, ?_⟩
  show pyStrip (ensureDoctype
      (if containsSub r htmlFenceL then
        pyStrip (pySlice r (pyFind r htmlFenceL + 7) (pyRfind r fenceL))
      else if containsSub r fenceL then
        pyStrip (pySlice r (pyFind r fenceL + 3) (pyRfind r fenceL))
      else r)) = doctypeL
  rw [if_pos hcontains, hfind, hrfind, hslice]
  decide

/-- Witness for C10: the input contains the html fence-open marker at index 0
and no fence marker after it; the sanitizer output is exactly the declaration
line and the generated paragraph is discarded. -/
theorem C10_witness :
    pyFind (("```html\n<p>hi</p>").data) htmlFenceL = ((0 : Nat) : Int) ∧
    (∀ j, j ≤ (("```html\n<p>hi</p>").data).length → 0 < j →
      matchesAt (("```html\n<p>hi</p>").data) fenceL j = false) ∧
    clean_html_response (("```html\n<p>hi</p>").data) = doctypeL := by
  refine ⟨by decide, by decide, ?_⟩
  exact (C10_lone_fence (("```html\n<p>hi</p>").data) 0 (by decide) (by decide)).2.2

/-- C1: whenever the response contains the html-tagged fence-open marker, the
sanitizer extracts the substring strictly between the first fence-open marker
(at `find` plus the marker length 7) and the LAST fence-close marker in the
whole text (at `rfind`); on the claim's two-block input the extraction spans
from the first open to the last close and the output keeps `<p>A</p>`, the
intervening text, and `<p>B</p>` — not just the first block. -/
theorem C1_fence_extraction :
    (∀ r : List Char, containsSub r htmlFenceL = true →
      clean_html_response r =
        pyStrip (ensureDoctype
          (pyStrip (pySlice r (pyFind r htmlFenceL + 7) (pyRfind r fenceL))))) ∧
    clean_html_response (("```html\n<p>A</p>\n```\nextra ```html\n<p>B</p>\n```").data)
        = ("<!DOCTYPE html>\n<p>A</p>\n```\nextra ```html\n<p>B</p>").data ∧
    pyFind (("```html\n<p>A</p>\n```\nextra ```html\n<p>B</p>\n```").data) htmlFenceL = 0 ∧
    pyRfind (("```html\n<p>A</p>\n```\nextra ```html\n<p>B</p>\n```").data) fenceL = 44 ∧
    containsSub
      (clean_html_response (("```html\n<p>A</p>\n```\nextra ```html\n<p>B</p>\n```").data))
      (("<p>A</p>").data) = true ∧
    containsSub
      (clean_html_response (("```html\n<p>A</p>\n```\nextra ```html\n<p>B</p>\n```").data))
      (("<p>B</p>").data) = true := by
  refine ⟨fun r h => ?_, by decide, by decide, by decide, by decide, by decide⟩
  show pyStrip (ensureDoctype
      (if containsSub r htmlFenceL then
        pyStrip (pySlice r (pyFind r htmlFenceL + 7) (pyRfind r fenceL))
      else if containsSub r fenceL then
        pyStrip (pySlice r (pyFind r fenceL + 3) (pyRfind r fenceL))
      else r)) = _
  rw [if_pos h]

/-- Witness for C1: the first-open/last-close characterization instantiated at
a concrete html-fenced input. -/
theorem C1_witness :
    containsSub (("```html\n<p>C</p>\n```").data) htmlFenceL = true ∧
    clean_html_response (("```html\n<p>C</p>\n```").data)
        = pyStrip (ensureDoctype (pyStrip (pySlice (("```html\n<p>C</p>\n```").data)
            (pyFind (("```html\n<p>C</p>\n```").data) htmlFenceL + 7)
            (pyRfind (("```html\n<p>C</p>\n```").data) fenceL)))) :=
  ⟨by decide, C1_fence_extraction.1 (("```html\n<p>C</p>\n```").data) (by decide)⟩

theorem straddle_false_getLast {sub a v : List Char} {u : List Char} {c : Char}
    (he : sub = u ++ v) (hu : u ≠ []) (hua : u <:+ a)
    (hlast : a.getLast? = some c) (hc : c ∉ sub) : False := by
  have h1 : u.getLast? = some c := (getLast?_of_nonempty_suffix hua hu).trans hlast
  have h2 : c ∈ u := List.mem_of_getLast?_eq_some h1
  exact hc (he ▸ (List.mem_append.mpr (Or.inl h2)))

theorem straddle_false_head {sub b u : List Char} {v : List Char} {c : Char}
    (he : sub = u ++ v) (hv : v ≠ []) (hvb : v <+: b)
    (hhead : b.head? = some c) (hc : c ∉ sub) : False := by
  have h1 : v.head? = some c := (prefix_head?_eq hvb hv).trans hhead
  have h2 : c ∈ v := mem_of_head?_eq_some h1
  exact hc (he ▸ (List.mem_append.mpr (Or.inr h2)))

theorem straddle_false_mid {u v : List Char}
    (he : defaultStyleL = u ++ v) (hu : u ≠ []) (hv : v ≠ [])
    (hua : u <:+ promptMidL) : False := by
  have hpre : u <+: defaultStyleL := ⟨v, he.symm⟩
  have htake : u = defaultStyleL.take u.length := List.prefix_iff_eq_take.mp hpre
  have hlen : u.length < defaultStyleL.length := by
    have hle := hpre.length_le
    rcases Nat.lt_or_ge u.length defaultStyleL.length with h | h
    · exact h
    · exfalso
      have hlen2 : defaultStyleL.length = u.length + v.length := by
        rw [he, List.length_append]
      have hv0 : v.length = 0 := by omega
      exact hv (List.length_eq_zero.mp hv0)
  have hkill : ∀ k, k < 27 → 0 < k → ¬(defaultStyleL.take k <:+ promptMidL) := by decide
  have h27 : defaultStyleL.length = 27 := by decide
  rw [htake] at hua
  exact hkill u.length (by omega) (List.length_pos.mpr hu) hua

theorem phrase_not_in_prompt {d s : List Char}
    (hd : containsSub d defaultStyleL = false)
    (hs : containsSub s defaultStyleL = false) (hne : s ≠ []) :
    containsSub (generate_prompt d s) defaultStyleL = false := by
  cases hx : containsSub (generate_prompt d s) defaultStyleL with
  | false => rfl
  | true =>
    exfalso
    have hinf := (containsSub_eq_true_iff _ _).mp hx
    have hgen : generate_prompt d s
        = promptPrefixL ++ (d ++ (promptMidL ++ (s ++ promptSuffixL))) := by
      unfold generate_prompt
      rw [if_neg hne]
    rw [hgen] at hinf
    rcases infix_append_cases hinf with h1 | h2 | ⟨u, v, he, hu, hv, hua, hvb⟩
    · exact absurd h1 (by decide)
    · rcases infix_append_cases h2 with h3 | h4 | ⟨u, v, he, hu, hv, hua, hvb⟩
      · rw [(containsSub_eq_true_iff _ _).mpr h3] at hd
        simp at hd
      · rcases infix_append_cases h4 with h5 | h6 | ⟨u, v, he, hu, hv, hua, hvb⟩
        · exact absurd h5 (by decide)
        · rcases infix_append_cases h6 with h7 | h8 | ⟨u, v, he, hu, hv, hua, hvb⟩
          · rw [(containsSub_eq_true_iff _ _).mpr h7] at hs
            simp at hs
          · exact absurd h8 (by decide)
          · exact straddle_false_head he hv hvb
              (show promptSuffixL.head? = some ('\n') from by decide) (by decide)
        · exact straddle_false_mid he hu hv hua
      · exact straddle_false_head he hv hvb
          (show (promptMidL ++ (s ++ promptSuffixL)).head? = some ('\n') from by
            rw [List.head?_append, show promptMidL.head? = some ('\n') from by decide]
            rfl)
          (by decide)
    · exact straddle_false_getLast he hu hua
        (show promptPrefixL.getLast? = some ('\n') from by decide) (by decide)

/-- C4 counterexample: with the non-empty style text "Modern, clean, and
engaging", the built instruction contains the default style phrase even
though the style is not empty, so the output does NOT contain the default
phrase "only when style is empty" as the claim states. -/
theorem C4_counterexample :
    (("Modern, clean, and engaging").data ≠ ([] : List Char)) ∧
    containsSub
      (generate_prompt (("d").data) (("Modern, clean, and engaging").data))
      defaultStyleL = true := by
  refine ⟨by decide, by decide⟩

/-- C4 (amended): for every non-empty description and every style, the built
instruction contains the description verbatim and the style text verbatim;
when the style is empty it contains the default style phrase; and — provided
neither the description nor the style text themselves contain the default
phrase — a non-empty style yields an instruction that does not contain the
default phrase. -/
theorem C4_prompt_contains (d s : List Char) (_hd : d ≠ []) :
    containsSub (generate_prompt d s) d = true ∧
    containsSub (generate_prompt d s) s = true ∧
    (s = [] → containsSub (generate_prompt d s) defaultStyleL = true) ∧
    (s ≠ [] → containsSub d defaultStyleL = false → containsSub s defaultStyleL = false →
      containsSub (generate_prompt d s) defaultStyleL = false) := by
  refine ⟨?_, ?_, ?_, ?_⟩
  · rw [containsSub_eq_true_iff]
    exact ⟨promptPrefixL,
      promptMidL ++ ((if s = ([] : List Char) then defaultStyleL else s) ++ promptSuffixL),
      by unfold generate_prompt; simp [List.append_assoc]⟩
  · by_cases hs : s = ([] : List Char)
    · subst hs
      rw [containsSub_eq_true_iff]
      exact ⟨[], generate_prompt d [], by simp⟩
    · rw [containsSub_eq_true_iff]
      refine ⟨promptPrefixL ++ (d ++ promptMidL), promptSuffixL, ?_⟩
      unfold generate_prompt
      rw [if_neg hs]
      simp [List.append_assoc]
  · intro hs
    rw [containsSub_eq_true_iff]
    refine ⟨promptPrefixL ++ (d ++ promptMidL), promptSuffixL, ?_⟩
    unfold generate_prompt
    rw [if_pos hs]
    simp [List.append_assoc]
  · intro hne hd' hs'
    exact phrase_not_in_prompt hd' hs' hne

/-- Witness for C4: the amended containment facts evaluated at the concrete
description "todo app" and style "dark". -/
theorem C4_witness :
    (("todo app").data ≠ ([] : List Char)) ∧
    containsSub (generate_prompt (("todo app").data) (("dark").data))
      (("todo app").data) = true ∧
    containsSub (generate_prompt (("todo app").data) (("dark").data))
      (("dark").data) = true ∧
    containsSub (generate_prompt (("todo app").data) (("dark").data))
      defaultStyleL = false := by
  have h := C4_prompt_contains (("todo app").data) (("dark").data) (by decide)
  exact ⟨by decide, h.1, h.2.1, h.2.2.2 (by decide) (by decide) (by decide)⟩

set_option maxHeartbeats 2000000 in
/-- C5 counterexample: the instruction built with empty style does NOT contain
the lowercase phrase "modern, clean, and engaging" that the claim quotes —
the code substitutes the capitalized phrase "Modern, clean, and engaging". -/
theorem C5_counterexample :
    containsSub (generate_prompt (("d").data) ([] : List Char))
      (("modern, clean, and engaging").data) = false := by
  decide

/-- C5 (amended): when the style argument is empty, the built instruction is
exactly the template with the default phrase "Modern, clean, and engaging"
(capitalized as in the code) substituted in place of the style text, and in
particular contains that phrase. -/
theorem C5_default_phrase (d : List Char) :
    generate_prompt d ([] : List Char)
      = promptPrefixL ++ (d ++ (promptMidL ++ (defaultStyleL ++ promptSuffixL))) ∧
    containsSub (generate_prompt d ([] : List Char)) defaultStyleL = true := by
  constructor
  · rfl
  · rw [containsSub_eq_true_iff]
    refine ⟨promptPrefixL ++ (d ++ promptMidL), promptSuffixL, ?_⟩
    unfold generate_prompt
    simp [List.append_assoc]

/-- C6: `save_app` derives the project directory name by exactly replacing
spaces with underscores and lowercasing the result — a per-character map, so
no character is escaped, dropped or added — and the two examples of the
claim hold: "My Cool App" maps to "my_cool_app" and "already_lower" is
unchanged. -/
theorem C6_slug (app_name : List Char) :
    slugify app_name
      = app_name.map (fun c => Char.toLower (if c = ' ' then '_' else c)) ∧
    (slugify app_name).length = app_name.length ∧
    slugify (("My Cool App").data) = ("my_cool_app").data ∧
    slugify (("already_lower").data) = ("already_lower").data := by
  refine ⟨?_, ?_, by decide, by decide⟩
  · unfold slugify pyLower pyReplaceSpaceUnderscore
    rw [List.map_map]
    rfl
  · unfold slugify pyLower pyReplaceSpaceUnderscore
    simp

/-- C7: when no API key is resolved from the flag or the environment variable
(absent, or present but empty), `main` prints the two diagnostic lines and
exits with status 1, and its trace contains no network call, no directory
creation and no file write. -/
theorem C7_missing_key (flagKey envKey : Option (List Char))
    (name description style : List Char) (no_run : Bool) (port : Nat)
    (resp : Except (List Char) (List Char))
    (h : pyFalsy (resolveKey flagKey envKey) = true) :
    mainRun flagKey envKey name description style no_run port resp
      = [Effect.printMsg noKeyMsg1L, Effect.printMsg noKeyMsg2L, Effect.exitProc 1] ∧
    Effect.networkCall ∉ mainRun flagKey envKey name description style no_run port resp ∧
    (∀ p, Effect.mkdir p ∉ mainRun flagKey envKey name description style no_run port resp) ∧
    (∀ p c, Effect.writeFile p c
      ∉ mainRun flagKey envKey name description style no_run port resp) := by
  have he : mainRun flagKey envKey name description style no_run port resp
      = [Effect.printMsg noKeyMsg1L, Effect.printMsg noKeyMsg2L, Effect.exitProc 1] := by
    unfold mainRun
    rw [if_pos h]
  refine ⟨he, ?_, ?_, ?_⟩
  · rw [he]; simp
  · intro p; rw [he]; simp
  · intro p c; rw [he]; simp

/-- Witness for C7: with no flag and no environment variable the key is falsy
and the trace is exactly the two diagnostics and the exit. -/
theorem C7_witness :
    pyFalsy (resolveKey none none) = true ∧
    mainRun none none (("A").data) (("d").data) ([]) false 8080
        (.ok (("<div>x</div>").data))
      = [Effect.printMsg noKeyMsg1L, Effect.printMsg noKeyMsg2L, Effect.exitProc 1] :=
  ⟨by decide, (C7_missing_key none none (("A").data) (("d").data) ([]) false 8080
      (.ok (("<div>x</div>").data)) (by decide)).1⟩

/-- C8: in every invocation trace, every file-write effect writes the
sanitized text `clean_html_response raw` of the API response — so the save
step always stores the sanitized text; and whenever sanitization changes the
raw response, the raw text itself is never written to any path. -/
theorem C8_sanitized_only (flagKey envKey : Option (List Char))
    (name description style : List Char) (no_run : Bool) (port : Nat)
    (resp : Except (List Char) (List Char)) :
    (∀ p c, Effect.writeFile p c
        ∈ mainRun flagKey envKey name description style no_run port resp →
      ∃ raw, resp = .ok raw ∧ c = clean_html_response raw) ∧
    (∀ raw p, resp = .ok raw → clean_html_response raw ≠ raw →
      Effect.writeFile p raw
        ∉ mainRun flagKey envKey name description style no_run port resp) := by
  by_cases hk : pyFalsy (resolveKey flagKey envKey) = true
  · constructor
    · intro p c h
      simp [mainRun, hk] at h
    · intro raw p hresp hne h
      simp [mainRun, hk] at h
  · rw [Bool.not_eq_true] at hk
    cases resp with
    | error e =>
      constructor
      · intro p c h
        simp [mainRun, hk, create_app, call_claude_api] at h
      · intro raw p hresp hne h
        simp at hresp
    | ok raw0 =>
      constructor
      · intro p c h
        cases no_run with
        | true =>
          simp [mainRun, hk, create_app, call_claude_api, save_app, run_server] at h
          exact ⟨raw0, rfl, h.2⟩
        | false =>
          simp [mainRun, hk, create_app, call_claude_api, save_app, run_server] at h
          exact ⟨raw0, rfl, h.2⟩
      · intro raw p hresp hne h
        have hr : raw = raw0 := by
          injection hresp.symm
        subst hr
        cases no_run with
        | true =>
          simp [mainRun, hk, create_app, call_claude_api, save_app, run_server] at h
          exact hne h.2.symm
        | false =>
          simp [mainRun, hk, create_app, call_claude_api, save_app, run_server] at h
          exact hne h.2.symm

/-- Witness for C8: a concrete successful invocation whose single file write
stores exactly the sanitized response text. -/
theorem C8_witness :
    Effect.writeFile (("generated_apps/my_app/index.html").data)
        (("<!DOCTYPE html>\n<div>x</div>").data)
      ∈ mainRun (some (("k").data)) none (("My App").data) (("d").data) ([]) true 8080
          (.ok (("<div>x</div>").data)) ∧
    ∃ raw, (Except.ok (("<div>x</div>").data) : Except (List Char) (List Char))
        = .ok raw
      ∧ ("<!DOCTYPE html>\n<div>x</div>").data = clean_html_response raw := by
  have hmem : Effect.writeFile (("generated_apps/my_app/index.html").data)
        (("<!DOCTYPE html>\n<div>x</div>").data)
      ∈ mainRun (some (("k").data)) none (("My App").data) (("d").data) ([]) true 8080
          (.ok (("<div>x</div>").data)) := by decide
  exact ⟨hmem, (C8_sanitized_only (some (("k").data)) none (("My App").data)
    (("d").data) ([]) true 8080 (.ok (("<div>x</div>").data))).1 _ _ hmem⟩

/-- C9: when the API key is present and the single generation request raises
an exception, the trace is exactly: create the output directory, print the
two banner lines, print the progress message, perform the ONE network call,
print the diagnostic with the exception text, and exit with status 1; the
trace ends with the exit and contains exactly one network call — and for
every invocation whatsoever the trace contains at most one network call, so
the request is never retried. -/
theorem C9_generation_error (flagKey envKey : Option (List Char))
    (name description style : List Char) (no_run : Bool) (port : Nat)
    (resp : Except (List Char) (List Char)) (e : List Char)
    (hk : pyFalsy (resolveKey flagKey envKey) = false)
    (hresp : resp = .error e) :
    mainRun flagKey envKey name description style no_run port resp
      = [Effect.mkdir outputDirL,
         Effect.printMsg (creatingMsgPrefixL ++ name),
         Effect.printMsg (descMsgPrefixL ++ (description ++ ("\n").data)),
         Effect.printMsg callingMsgL, Effect.networkCall,
         Effect.printMsg (apiErrPrefixL ++ e), Effect.exitProc 1] ∧
    (mainRun flagKey envKey name description style no_run port resp).getLast?
      = some (Effect.exitProc 1) ∧
    countNetwork (mainRun flagKey envKey name description style no_run port resp) = 1 ∧
    (∀ (flagKey' envKey' : Option (List Char)) (name' description' style' : List Char)
        (no_run' : Bool) (port' : Nat) (resp' : Except (List Char) (List Char)),
      countNetwork
        (mainRun flagKey' envKey' name' description' style' no_run' port' resp') ≤ 1) := by
  subst hresp
  have hfirst : mainRun flagKey envKey name description style no_run port (.error e)
      = [Effect.mkdir outputDirL,
         Effect.printMsg (creatingMsgPrefixL ++ name),
         Effect.printMsg (descMsgPrefixL ++ (description ++ ("\n").data)),
         Effect.printMsg callingMsgL, Effect.networkCall,
         Effect.printMsg (apiErrPrefixL ++ e), Effect.exitProc 1] := by
    simp [mainRun, hk, create_app, call_claude_api]
  refine ⟨hfirst, ?_, ?_, ?_⟩
  · rw [hfirst]
    rfl
  · rw [hfirst]
    rfl
  · intro fk ek n d st nr pt r
    by_cases hk2 : pyFalsy (resolveKey fk ek) = true
    · simp [mainRun, hk2, countNetwork, isNetworkCall]
    · rw [Bool.not_eq_true] at hk2
      cases r with
      | error e2 =>
        simp [mainRun, hk2, create_app, call_claude_api, countNetwork, isNetworkCall]
      | ok t =>
        cases nr with
        | true =>
          simp [mainRun, hk2, create_app, call_claude_api, save_app, run_server,
            countNetwork, isNetworkCall]
        | false =>
          simp [mainRun, hk2, create_app, call_claude_api, save_app, run_server,
            countNetwork, isNetworkCall]

/-- Witness for C9: a concrete invocation with a failing request; its trace
ends with the diagnostic and the exit with status 1, after exactly one
network call. -/
theorem C9_witness :
    pyFalsy (resolveKey (some (("k").data)) none) = false ∧
    mainRun (some (("k").data)) none (("A").data) (("d").data) ([]) false 8080
        (.error (("boom").data))
      = [Effect.mkdir outputDirL,
         Effect.printMsg (creatingMsgPrefixL ++ ("A").data),
         Effect.printMsg (descMsgPrefixL ++ ((("d").data) ++ ("\n").data)),
         Effect.printMsg callingMsgL, Effect.networkCall,
         Effect.printMsg (apiErrPrefixL ++ ("boom").data), Effect.exitProc 1] ∧
    countNetwork (mainRun (some (("k").data)) none (("A").data) (("d").data) ([]) false 8080
        (.error (("boom").data))) = 1 :=
  ⟨by decide,
   (C9_generation_error (some (("k").data)) none (("A").data) (("d").data) ([]) false 8080
      (.error (("boom").data)) (("boom").data) (by decide) rfl).1,
   (C9_generation_error (some (("k").data)) none (("A").data) (("d").data) ([]) false 8080
      (.error (("boom").data)) (("boom").data) (by decide) rfl).2.2.1⟩
